import Mathlib

/-!
# Verification of the MonCurse tile-map converters

Shallow embedding of the two converters of this repository:

* `src/tiled_to_bin.py` — the reverse codec: a TMX interchange map
  (flat row-major GID arrays) is converted back to the proprietary
  column-major binary format (namespace `TiledToBin`);
* `src/map/bin_to_tiled.py` — the forward codec: the binary format is
  converted to TMX GIDs (namespace `BinToTiled`).

Modelling conventions:
* Python ints are `ℤ` (or `ℕ` where the source value is provably a byte
  or a regex `\d+` match); pixel quantities (regions, strides) are
  Python floats used only through decimal literals, `+`, `*`, `/`,
  `round` and comparisons, embedded as `ℚ`; `round` (banker's rounding,
  ties to even) is `roundHalfEven` below.
* `struct.pack('B', v)` raises `struct.error` outside `[0, 255]`; it is
  embedded as `pack8 : ℤ → Option ℕ` and exceptions propagate as `none`.
* dictionaries are association lists looked up with `List.find?`;
  Python `in` on strings is contiguous-substring (`List.IsInfix` on the
  character lists).
* console prints that signal degraded conversions (the `OVERFLOW PTR`
  message of `get8`) are modelled as a `Bool` event so that their
  occurrence is part of the observable result.
-/

namespace MonCurse

/-! Arithmetic on `ℚ` written through `mkRat` so that the kernel can
evaluate it on concrete inputs (the `+ * - /` instances of `ℚ` are
irreducible); `qAdd_eq`, `qSub_eq`, `qMul_eq`, `qDiv_eq` prove the
operations are exactly those of `ℚ`. -/

def qAdd (a b : ℚ) : ℚ := mkRat (a.num * b.den + b.num * a.den) (a.den * b.den)

def qSub (a b : ℚ) : ℚ := mkRat (a.num * b.den - b.num * a.den) (a.den * b.den)

def qMul (a b : ℚ) : ℚ := mkRat (a.num * b.num) (a.den * b.den)

def qDiv (a b : ℚ) : ℚ :=
  if 0 ≤ b.num then mkRat (a.num * b.den) (a.den * b.num.toNat)
  else mkRat (-(a.num * b.den)) (a.den * (-b.num).toNat)

theorem qAdd_eq (a b : ℚ) : qAdd a b = a + b := by
  have ha : (a.den : ℚ) ≠ 0 := Nat.cast_ne_zero.mpr a.den_nz
  have hb : (b.den : ℚ) ≠ 0 := Nat.cast_ne_zero.mpr b.den_nz
  rw [qAdd, Rat.mkRat_eq_div]
  conv_rhs => rw [← Rat.num_div_den a, ← Rat.num_div_den b]
  push_cast
  field_simp

theorem qSub_eq (a b : ℚ) : qSub a b = a - b := by
  have ha : (a.den : ℚ) ≠ 0 := Nat.cast_ne_zero.mpr a.den_nz
  have hb : (b.den : ℚ) ≠ 0 := Nat.cast_ne_zero.mpr b.den_nz
  rw [qSub, Rat.mkRat_eq_div]
  conv_rhs => rw [← Rat.num_div_den a, ← Rat.num_div_den b]
  push_cast
  field_simp
  ring

theorem qMul_eq (a b : ℚ) : qMul a b = a * b := by
  have ha : (a.den : ℚ) ≠ 0 := Nat.cast_ne_zero.mpr a.den_nz
  have hb : (b.den : ℚ) ≠ 0 := Nat.cast_ne_zero.mpr b.den_nz
  rw [qMul, Rat.mkRat_eq_div]
  conv_rhs => rw [← Rat.num_div_den a, ← Rat.num_div_den b]
  push_cast
  field_simp

theorem qDiv_eq (a b : ℚ) : qDiv a b = a / b := by
  have ha : (a.den : ℚ) ≠ 0 := Nat.cast_ne_zero.mpr a.den_nz
  rcases eq_or_ne b 0 with rfl | hb0
  · simp [qDiv, Rat.mkRat_eq_div]
  · have hb : (b.den : ℚ) ≠ 0 := Nat.cast_ne_zero.mpr b.den_nz
    have hbn : (b.num : ℚ) ≠ 0 := by
      simpa using Rat.num_ne_zero.mpr hb0
    rw [qDiv]
    split
    · have h3 : (b.num.toNat : ℚ) = (b.num : ℚ) := by
        exact_mod_cast congrArg (fun z : ℤ => (z : ℚ)) (Int.toNat_of_nonneg ‹0 ≤ b.num›)
      rw [Rat.mkRat_eq_div]
      conv_rhs => rw [← Rat.num_div_den a, ← Rat.num_div_den b]
      push_cast [h3]
      field_simp
    · have h4 : ((-b.num).toNat : ℚ) = -(b.num : ℚ) := by
        exact_mod_cast congrArg (fun z : ℤ => (z : ℚ)) (Int.toNat_of_nonneg (by omega))
      rw [Rat.mkRat_eq_div]
      conv_rhs => rw [← Rat.num_div_den a, ← Rat.num_div_den b]
      push_cast [h4]
      field_simp

/-- Python `round`: nearest integer, ties to the even integer.
(`q.num.fdiv q.den` is `⌊q⌋`, written so that the kernel can evaluate
it on concrete rationals.) -/
def roundHalfEven (q : ℚ) : ℤ :=
  let f : ℤ := q.num.fdiv (q.den : ℤ)
  let r : ℚ := qSub q (f : ℚ)
  if r < mkRat 1 2 then f
  else if mkRat 1 2 < r then f + 1
  else if f % 2 = 0 then f else f + 1

/-- `TILE_SIZE = 128` (both scripts). -/
def TILE_SIZE : ℚ := 128

def TYPE_AUTOTILE : ℕ := 1
def TYPE_FLIP : ℕ := 2
def TYPE_SIMPLE : ℕ := 3

/-- `BINARY_WRITE_ORDER` of `tiled_to_bin.py`, identical to
`BINARY_READ_ORDER` of `bin_to_tiled.py`. -/
def BINARY_WRITE_ORDER : List String :=
  ["constructmap", "constructmapedges", "constructbackground",
   "constructbackground/backgroundfeatures", "Map", "Mapedges",
   "Mapbackground", "paths", "features", "roofmap", "foliage",
   "shards", "watermap", "cummap", "spawnmarker",
   "destructiblefeatures", "watermaptops"]

/-- The `LAYER_TYPES` dictionary (identical in both scripts). -/
def LAYER_TYPES : List (String × ℕ) :=
  [("constructmap", TYPE_AUTOTILE), ("constructmapedges", TYPE_AUTOTILE),
   ("constructbackground", TYPE_AUTOTILE), ("Map", TYPE_AUTOTILE),
   ("Mapedges", TYPE_AUTOTILE), ("Mapbackground", TYPE_AUTOTILE),
   ("roofmap", TYPE_AUTOTILE), ("watermap", TYPE_AUTOTILE),
   ("constructbackground/backgroundfeatures", TYPE_FLIP), ("features", TYPE_FLIP),
   ("foliage", TYPE_FLIP), ("cummap", TYPE_FLIP), ("destructiblefeatures", TYPE_FLIP),
   ("paths", TYPE_SIMPLE), ("shards", TYPE_SIMPLE),
   ("spawnmarker", TYPE_SIMPLE), ("watermaptops", TYPE_SIMPLE)]

/-- `LAYER_TYPES.get(layer_name, TYPE_SIMPLE)`. -/
def layerType (name : String) : ℕ :=
  ((LAYER_TYPES.find? (fun p => p.1 = name)).map Prod.snd).getD TYPE_SIMPLE

/-- Bytes written per cell for a layer of encoding type `t`: the tile
index byte plus two autotile bytes, one flip byte, or nothing. -/
def cell_width (t : ℕ) : ℕ :=
  1 + (if t = TYPE_AUTOTILE then 2 else if t = TYPE_FLIP then 1 else 0)

def FLIPPED_HORIZONTALLY_FLAG : ℕ := 0x80000000
def GID_MASK : ℕ := 0x1FFFFFFF

/-- Python `a in b` on strings: `a` is a contiguous substring of `b`. -/
def strIn (a b : String) : Bool := decide (a.toList <:+: b.toList)

/-- Lexicographic comparison of code-point lists: Python's `<=` on
`str`. -/
def charListLe : List Char → List Char → Bool
  | [], _ => true
  | _ :: _, [] => false
  | c :: cs, d :: ds =>
    if c.toNat < d.toNat then true
    else if d.toNat < c.toNat then false
    else charListLe cs ds

/-- Python `a <= b` on strings (code-point lexicographic, the order
`sorted` uses). -/
def strLe (a b : String) : Bool := charListLe a.data b.data

/-- `struct.pack('B', v)`: one unsigned byte, `struct.error` outside
`[0, 255]` (modelled as `none`). -/
def pack8 (v : ℤ) : Option ℕ :=
  if 0 ≤ v ∧ v ≤ 255 then some v.toNat else none

namespace TiledToBin

/-- `TileDefinition` of `tiled_to_bin.py` (no `tile_mode` field in this
script). `godot_id` is a regex `\d+` match, hence `ℕ`. -/
structure TileDefinition where
  godot_id : ℕ
  texture_path : String
  region : ℚ × ℚ × ℚ × ℚ
  stride : ℚ × ℚ
deriving Repr, DecidableEq

/-- `TilesetInfo` of `tiled_to_bin.py` (the fields the cell codec
reads: `firstgid`, `image_path`, `columns`). -/
structure TilesetInfo where
  firstgid : ℤ
  image_path : Option String
  columns : ℤ
deriving Repr, DecidableEq

/-- `s.replace('\\', '/')`: the pattern is a single character, so the
replacement is the character-wise map. -/
def cleanSlashes (s : String) : String :=
  String.mk (s.data.map (fun c => if c = '\\' then '/' else c))

/-- The texture-path filter of `get_godot_tile_from_pixel`: when
`texture_path` is truthy (`None` and `""` are falsy), a definition is
skipped unless one path is a substring of the other. -/
def pathOk (tp : Option String) (d : TileDefinition) : Bool :=
  match tp with
  | none => true
  | some s => if s = "" then true
      else strIn d.texture_path s || strIn s d.texture_path

/-- The region test of `get_godot_tile_from_pixel`: both coordinates
within the region's bounds shifted down by the `0.1` tolerance
(inclusive below, exclusive above). -/
def regionContains (d : TileDefinition) (px py : ℚ) : Bool :=
  decide (px ≥ qSub d.region.1 (mkRat 1 10)) &&
  decide (px < qSub (qAdd d.region.1 d.region.2.2.1) (mkRat 1 10)) &&
  decide (py ≥ qSub d.region.2.1 (mkRat 1 10)) &&
  decide (py < qSub (qAdd d.region.2.1 d.region.2.2.2) (mkRat 1 10))

/-- The loop body of `get_godot_tile_from_pixel`: first definition
passing both the path filter and the region test wins. -/
def godotLoop (tp : Option String) (px py : ℚ) :
    List TileDefinition → Option ℕ × ℤ × ℤ
  | [] => (none, 0, 0)
  | d :: rest =>
    if pathOk tp d && regionContains d px py then
      (some d.godot_id,
       roundHalfEven (qDiv (qSub px d.region.1) d.stride.1),
       roundHalfEven (qDiv (qSub py d.region.2.1) d.stride.2))
    else godotLoop tp px py rest

/-- The pre-loop normalization of `texture_path`: a truthy path has
its backslashes replaced, a falsy one is left alone. -/
def cleanTp (texture_path : Option String) : Option String :=
  match texture_path with
  | none => none
  | some s => if s = "" then some s else some (cleanSlashes s)

/-- `get_godot_tile_from_pixel(layer_defs, texture_path, pixel_x,
pixel_y)`. -/
def get_godot_tile_from_pixel (layer_defs : List TileDefinition)
    (texture_path : Option String) (pixel_x pixel_y : ℚ) :
    Option ℕ × ℤ × ℤ :=
  godotLoop (cleanTp texture_path) pixel_x pixel_y layer_defs

/-- The `for ts in tilesets: if gid >= ts.firstgid: target_ts = ts; break`
search (`tilesets` is sorted by descending `firstgid` by the caller). -/
def findTarget (gid : ℕ) : List TilesetInfo → Option TilesetInfo
  | [] => none
  | ts :: rest => if ts.firstgid ≤ (gid : ℤ) then some ts else findTarget gid rest

/-- The per-cell body of `convert_tmx_to_bin` computing
`(final_id, auto_x, auto_y)` from the masked GID. -/
def decode_core (layer_name : String) (tilesets : List TilesetInfo)
    (defs : List TileDefinition) (gid : ℕ) : ℤ × ℤ × ℤ :=
  if 0 < gid then
    match findTarget gid tilesets with
    | none => (0, 0, 0)
    | some target_ts =>
      let local_id : ℤ := (gid : ℤ) - target_ts.firstgid
      if layer_name = "spawnmarker" then (local_id + 1, 0, 0)
      else
        let img_grid_x : ℤ :=
          if 0 < target_ts.columns then local_id.fmod target_ts.columns else 0
        let img_grid_y : ℤ :=
          if 0 < target_ts.columns then local_id.fdiv target_ts.columns else 0
        let pixel_x : ℚ := qMul (img_grid_x : ℚ) TILE_SIZE
        let pixel_y : ℚ := qMul (img_grid_y : ℚ) TILE_SIZE
        match get_godot_tile_from_pixel defs target_ts.image_path pixel_x pixel_y with
        | (some godot_id, ax, ay) => ((godot_id : ℤ) + 1, ax, ay)
        | (none, _, _) =>
          if layer_name = "Mapbackground" then
            match defs with
            | [] => (0, 0, 0)
            | d0 :: _ => ((d0.godot_id : ℤ) + 1, img_grid_x, img_grid_y)
          else (0, 0, 0)
  else (0, 0, 0)

/-- The bytes `convert_tmx_to_bin` writes for one cell holding the raw
interchange value `raw_gid`: `final_id`, then two autotile bytes, one
flip byte, or nothing, by the layer's encoding type. -/
def cell_bytes (layer_name : String) (layer_type : ℕ)
    (tilesets : List TilesetInfo) (defs : List TileDefinition)
    (raw_gid : ℕ) : Option (List ℕ) :=
  let flipped_h : Bool := decide (raw_gid &&& FLIPPED_HORIZONTALLY_FLAG ≠ 0)
  let gid : ℕ := raw_gid &&& GID_MASK
  let r := decode_core layer_name tilesets defs gid
  do
    let b0 ← pack8 r.1
    if layer_type = TYPE_AUTOTILE then
      let b1 ← pack8 r.2.1
      let b2 ← pack8 r.2.2
      pure [b0, b1, b2]
    else if layer_type = TYPE_FLIP then
      pure [b0, if flipped_h then 1 else 0]
    else
      pure [b0]

/-- Embedding of `parse_tile_definitions_from_string`.  The per-id
regex extraction (texture `ExtResource`, region `Rect2`, stride
`Vector2`) over the resource text is abstracted as
`entry : ℕ → Option TileDefinition` (`none` when the texture regex
fails or the `ExtResource` id is unknown, in which case the id is
skipped); `ids_iter` makes explicit the iteration order of the Python
`set` of matched id strings, which CPython leaves unspecified (string
hashing is salted per process), as a parameter: any permutation of the
distinct matched ids is a possible run. -/
def parse_tile_definitions_from_string (ids_iter : List ℕ)
    (entry : ℕ → Option TileDefinition) : List TileDefinition :=
  ids_iter.filterMap entry

/-- The grid-filling loop of `convert_tmx_to_bin`
(`x = i % w; y = i // w; if x < w and y < h: grid[x][y] = raw`),
with the running index made explicit. -/
def buildGridAux (w h : ℕ) : ℕ → List ℕ → (ℕ × ℕ → ℕ) → (ℕ × ℕ → ℕ)
  | _, [], g => g
  | i, raw :: rest, g =>
    buildGridAux w h (i + 1) rest
      (if i % w < w ∧ i / w < h then
        (fun c => if c = (i % w, i / w) then raw else g c) else g)

/-- `grid` built from the flat row-major TMX gid list (cells start at
zero). -/
def buildGrid (w h : ℕ) (gids : List ℕ) : ℕ × ℕ → ℕ :=
  buildGridAux w h 0 gids (fun _ => 0)

/-- The raw gids of one layer in binary write order (outer loop over
width, inner over height); an absent layer reads as all zeros
(`grid[x][y] if grid else 0`). -/
def cellsOf (w h : ℕ) (grid : Option (ℕ × ℕ → ℕ)) : List ℕ :=
  (List.range w).flatMap (fun x => (List.range h).map (fun y =>
    (grid.map (fun g => g (x, y))).getD 0))

/-- All bytes `convert_tmx_to_bin` writes for one layer. -/
def layer_chunk (w h : ℕ) (layer_name : String)
    (tilesets : List TilesetInfo) (grid : Option (ℕ × ℕ → ℕ))
    (defs : List TileDefinition) : Option (List ℕ) :=
  ((cellsOf w h grid).mapM
      (cell_bytes layer_name (layerType layer_name) tilesets defs)).map
    List.flatten

/-- `tilesets.sort(key=lambda x: x.firstgid, reverse=True)` (stable). -/
def sortTilesetsDesc (l : List TilesetInfo) : List TilesetInfo :=
  l.mergeSort (fun a b => decide (b.firstgid ≤ a.firstgid))

/-- `convert_tmx_to_bin`, from the parsed inputs: map dimensions (TMX
attributes, arbitrary ints), the tileset list, the per-layer grids
(`none` for layers absent from the TMX) and the per-layer tile
definitions.  The output is the byte list written to the `.bin` file;
`none` models a `struct.error` aborting the conversion. -/
def convert_tmx_to_bin (map_width map_height : ℤ)
    (tilesets : List TilesetInfo)
    (tmx_layers : String → Option (ℕ × ℕ → ℕ))
    (layer_definitions : String → List TileDefinition) : Option (List ℕ) :=
  let ts := sortTilesetsDesc tilesets
  let w := map_width.toNat
  let h := map_height.toNat
  do
    let wb ← pack8 map_width
    let hb ← pack8 map_height
    let chunks ← BINARY_WRITE_ORDER.mapM (fun name =>
      layer_chunk w h name ts (tmx_layers name) (layer_definitions name))
    let zb ← pack8 0
    pure ([wb, hb] ++ chunks.flatten ++ [zb])

end TiledToBin

namespace BinToTiled

/-- `TileDefinition` of `bin_to_tiled.py` (this script also records
`tile_mode`: 0 = single, 1 = auto, 2 = atlas). -/
structure TileDefinition where
  godot_id : ℕ
  texture_path : String
  region : ℚ × ℚ × ℚ × ℚ
  stride : ℚ × ℚ
  tile_mode : ℤ
deriving Repr, DecidableEq

/-- `ImageTileset` of `bin_to_tiled.py` (the fields the cell codec
reads: `firstgid`, `cols`, `rows`). -/
structure ImageTileset where
  rel_path : String
  firstgid : ℤ
  cols : ℤ
  rows : ℤ
deriving Repr, DecidableEq

def spawn_icon_path : String := "Tilemaps/newsandstone.png"

/-- `tile_defs[tile_id]` on the per-layer dict keyed by godot id. -/
def lookupTid (td : List (ℕ × TileDefinition)) (k : ℤ) :
    Option TileDefinition :=
  (td.find? (fun p => (p.1 : ℤ) = k)).map Prod.snd

/-- `unique_images[path]` on the path-keyed dict. -/
def lookupImage (ui : List (String × ImageTileset)) (p : String) :
    Option ImageTileset :=
  (ui.find? (fun q => q.1 = p)).map Prod.snd

/-- `pixel_x = region[0]`, plus `auto_x * stride[0]` when
`tile_mode > 0`. -/
def pixel_x_of (d : TileDefinition) (auto_x : ℕ) : ℚ :=
  qAdd d.region.1 (if 0 < d.tile_mode then qMul (auto_x : ℚ) d.stride.1 else 0)

/-- `pixel_y = region[1]`, plus `auto_y * stride[1]` when
`tile_mode > 0`. -/
def pixel_y_of (d : TileDefinition) (auto_y : ℕ) : ℚ :=
  qAdd d.region.2.1 (if 0 < d.tile_mode then qMul (auto_y : ℚ) d.stride.2 else 0)

/-- `grid_x = int(round(pixel_x / TILE_SIZE))`. -/
def grid_x_of (d : TileDefinition) (auto_x : ℕ) : ℤ :=
  roundHalfEven (qDiv (pixel_x_of d auto_x) TILE_SIZE)

/-- `grid_y = int(round(pixel_y / TILE_SIZE))`. -/
def grid_y_of (d : TileDefinition) (auto_y : ℕ) : ℤ :=
  roundHalfEven (qDiv (pixel_y_of d auto_y) TILE_SIZE)

/-- The per-cell body of `convert` in `bin_to_tiled.py`: from the
decoded bytes of one binary cell (`val`, the autotile bytes and the
flip flag, as consumed for this layer's encoding type) to the final
TMX gid. -/
def forward_cell (layer_name : String)
    (tile_defs : List (ℕ × TileDefinition))
    (unique_images : List (String × ImageTileset))
    (val auto_x auto_y : ℕ) (flip : Bool) : ℤ :=
  let tile_id : ℤ := (val : ℤ) - 1
  if 0 ≤ tile_id then
    if layer_name = "spawnmarker" then
      match lookupImage unique_images spawn_icon_path with
      | none => 0
      | some img_ts =>
        let local_id := tile_id
        if local_id < img_ts.cols * img_ts.rows then
          img_ts.firstgid + local_id
        else img_ts.firstgid
    else
      match lookupTid tile_defs tile_id with
      | none => 0
      | some t_def =>
        match lookupImage unique_images t_def.texture_path with
        | none => 0
        | some img_ts =>
          let grid_x := grid_x_of t_def auto_x
          let grid_y := grid_y_of t_def auto_y
          if grid_x < img_ts.cols ∧ grid_y < img_ts.rows then
            let local_id := grid_x + grid_y * img_ts.cols
            let final_gid := img_ts.firstgid + local_id
            if flip then Int.lor final_gid 0x80000000 else final_gid
          else 0
  else 0

/-- `get_grid_dim`: ceiling division of a pixel dimension by the tile
size (`0` for non-positive input).  `TILE_SIZE` is the integer `128`
here; Python `//` is floor division. -/
def get_grid_dim (pixels : ℤ) : ℤ :=
  if pixels ≤ 0 then 0 else (pixels + 128 - 1).fdiv 128

/-- One atlas image as input to the registry: its path and pixel
dimensions (image-header reading is an external collaborator). -/
structure ImgIn where
  path : String
  pixel_w : ℤ
  pixel_h : ℤ
deriving Repr, DecidableEq

/-- `cols * rows` as computed by `create_tsx` via `get_grid_dim`. -/
def tile_count (i : ImgIn) : ℤ :=
  get_grid_dim i.pixel_w * get_grid_dim i.pixel_h

/-- The firstgid-assignment loop of `convert`
(`img_ts.firstgid = current_firstgid; current_firstgid += count`). -/
def assign_firstgids : ℤ → List ImgIn → List (ImgIn × ℤ)
  | _, [] => []
  | cur, i :: rest => (i, cur) :: assign_firstgids (cur + tile_count i) rest

/-- The atlas registry: paths sorted lexicographically
(`sorted(unique_images.keys())`), then firstgids assigned starting at
`1`. -/
def atlas_registry (imgs : List ImgIn) : List (ImgIn × ℤ) :=
  assign_firstgids 1 (imgs.mergeSort (fun a b => strLe a.path b.path))

/-- `get8`: one byte from the binary stream; past the end it prints an
overflow warning and yields `0` without advancing.  The returned `Bool`
is the warning event. -/
def get8 (bin_data : List ℕ) (ptr : ℕ) : ℕ × ℕ × Bool :=
  if bin_data.length ≤ ptr then (0, ptr, true)
  else (bin_data.getD ptr 0, ptr + 1, false)

/-- `n` successive `get8` reads; the flag records whether any of them
hit the end of the stream. -/
def readN (bin_data : List ℕ) : ℕ → ℕ → List ℕ × ℕ × Bool
  | ptr, 0 => ([], ptr, false)
  | ptr, n + 1 =>
    let r1 := get8 bin_data ptr
    let r2 := readN bin_data r1.2.1 n
    (r1.1 :: r2.1, r2.2.1, r1.2.2 || r2.2.2)

/-- `h` cells consumed sequentially from stream position `c`
(the inner `for y in range(height)` loop). -/
def readCells {α : Type} (stream : ℕ → α) : ℕ → ℕ → List α
  | _, 0 => []
  | c, n + 1 => stream c :: readCells stream (c + 1) n

/-- The columns of one layer, consumed left to right (the outer
`for x in range(width)` loop); `c` is the stream position where the
layer starts. -/
def readCols {α : Type} (stream : ℕ → α) : ℕ → ℕ → ℕ → List (List α)
  | _, _, 0 => []
  | c, h, n + 1 => readCells stream c h :: readCols stream (c + h) h n

/-- `layer_gids` of `convert`: `layer_gids[x][y]` is the cell at
column-major stream position `x*h + y`. -/
def layer_cols {α : Type} (w h : ℕ) (stream : ℕ → α) : List (List α) :=
  readCols stream 0 h w

/-- The flat row-major cell order of the emitted CSV
(`for y in range(height): row = [layer_gids[x][y] for x in range(width)]`). -/
def csv_flat {α : Type} (w h : ℕ) (cols : List (List α)) (dflt : α) :
    List α :=
  (List.range h).flatMap (fun y => (List.range w).map (fun x =>
    (cols.getD x []).getD y dflt))

end BinToTiled

/-! Concrete inputs used by counterexamples and witnesses. -/

/-- The atlas path of the spec's concrete scenario. -/
def c1_atlas_path : String := "Tilemaps/atlas.png"

/-- Scenario tile definition `{id: 5, region:(0,0,128,128),
stride:(128,128)}` as parsed by `tiled_to_bin.py`. -/
def c1_def : TiledToBin.TileDefinition :=
  ⟨5, c1_atlas_path, (0, 0, 128, 128), (128, 128)⟩

/-- Scenario tileset `firstgid=1, columns=4`. -/
def c1_tileset : TiledToBin.TilesetInfo := ⟨1, some c1_atlas_path, 4⟩

/-- The scenario tile definition on the forward side
(`bin_to_tiled.py`), in autotile mode. -/
def c1_defB : BinToTiled.TileDefinition :=
  ⟨5, c1_atlas_path, (0, 0, 128, 128), (128, 128), 1⟩

/-- The scenario atlas on the forward side: `firstgid=1`, 4 columns,
1 row (a 512 by 128 image). -/
def c1_img : BinToTiled.ImageTileset := ⟨c1_atlas_path, 1, 4, 1⟩

/-- Two tile definitions with identical (overlapping) regions and the
same texture, ids 1 and 2: pathological input for the reverse
lookup. -/
def c2_defA : TiledToBin.TileDefinition := ⟨1, "a.png", (0, 0, 256, 128), (128, 128)⟩

/-- Second overlapping definition, id 2. -/
def c2_defB : TiledToBin.TileDefinition := ⟨2, "a.png", (0, 0, 256, 128), (128, 128)⟩

/-- The per-id extraction for the two overlapping definitions. -/
def c2_entry (n : ℕ) : Option TiledToBin.TileDefinition :=
  if n = 1 then some c2_defA else if n = 2 then some c2_defB else none

/-- A tile definition whose region origin is at `x = -1000` (the
region regex of both scripts accepts negative coordinates). -/
def c3_def : BinToTiled.TileDefinition :=
  ⟨5, c1_atlas_path, (-1000, 0, 128, 128), (128, 128), 0⟩

/-- A 129 by 1 pixel atlas image (2 columns, 1 row by ceiling
division). -/
def c5_imgA : BinToTiled.ImgIn := ⟨"a.png", 129, 1⟩

/-- A 200 by 128 pixel atlas image (2 columns, 1 row). -/
def c5_imgB : BinToTiled.ImgIn := ⟨"b.png", 200, 128⟩

/-- A two-image registry input, already in lexicographic path order. -/
def c5_imgs : List BinToTiled.ImgIn := [c5_imgA, c5_imgB]

/-- The bytes produced for a 1 by 1 map with no layers present: the two
dimension bytes, 38 zero cell bytes (one cell in each of the 17 layers)
and the trailing sentinel. -/
def c9_bytes : List ℕ := [1, 1] ++ List.replicate 38 0 ++ [0]

/-!
## Theorems
-/

/-- Claim C1, counterexample.  In the spec's concrete scenario (tile
definition `{id: 5, region:(0,0,128,128), stride:(128,128)}`, atlas
`firstgid=1, columns=4`) on an ordinary `AUTOTILE` layer, reverse
encoding of GID 3 does *not* reproduce the bytes `[6, 2, 0]`: GID 3
resolves to pixel `(256, 0)`, which lies outside the definition's
128-wide region, so the lookup fails and the cell is emitted empty. -/
theorem c1_reverse_counterexample :
    TiledToBin.cell_bytes "constructmap" (layerType "constructmap")
      [c1_tileset] [c1_def] 3 = some [0, 0, 0] ∧
    some [0, 0, 0] ≠ some ([6, 2, 0] : List ℕ) := by
  decide

/-- Claim C1, amended.  Forward encoding of the binary cell bytes
`[6, 2, 0]` through the scenario definition (in autotile mode) produces
GID 3 as claimed; but reverse encoding of GID 3 reproduces `[6, 2, 0]`
only on the background-fallback layer `"Mapbackground"` (via its
fallback to the first definition, reusing the atlas grid coordinates
`(2, 0)` as autotile offsets); on every other `AUTOTILE` layer, such as
`"constructmap"`, the resolved pixel `(256, 0)` lies outside the
region `(0,0,128,128)` and the cell decodes as `[0, 0, 0]`. -/
theorem c1_scenario_amended :
    BinToTiled.forward_cell "constructmap" [(5, c1_defB)]
      [(c1_atlas_path, c1_img)] 6 2 0 false = 3 ∧
    TiledToBin.cell_bytes "Mapbackground" (layerType "Mapbackground")
      [c1_tileset] [c1_def] 3 = some [6, 2, 0] ∧
    TiledToBin.cell_bytes "constructmap" (layerType "constructmap")
      [c1_tileset] [c1_def] 3 = some [0, 0, 0] := by
  refine ⟨by decide, by decide, by decide⟩

/-- Claim C2, counterexample.  The tile-definition list is built by
iterating a Python `set` of matched id strings, whose order CPython
leaves unspecified (string hashing is salted per process), so the
search order is not pinned to source order: with two definitions whose
regions overlap, the two possible set orders — permutations of the
same id set — make the reverse lookup return different definitions. -/
theorem c2_order_counterexample :
    ([2, 1] : List ℕ).Perm [1, 2] ∧
    TiledToBin.get_godot_tile_from_pixel
        (TiledToBin.parse_tile_definitions_from_string [1, 2] c2_entry)
        (some "a.png") 0 0 ≠
      TiledToBin.get_godot_tile_from_pixel
        (TiledToBin.parse_tile_definitions_from_string [2, 1] c2_entry)
        (some "a.png") 0 0 :=
  ⟨by decide, by decide⟩

/-- Claim C2, amended.  For a given definition list, the reverse
lookup returns the first definition in list order that passes both the
texture-path filter (substring in either direction, skipped for a
falsy path) and the region test (bounds shifted down by the 0.1
tolerance, inclusive below and exclusive above); it is a pure function
of its inputs, hence deterministic for a fixed list.  The list order
itself, however, is the parser's Python-set iteration order, not
source order (see the counterexample). -/
theorem reverse_lookup_first_match (defs : List TiledToBin.TileDefinition)
    (tp : Option String) (px py : ℚ) :
    TiledToBin.get_godot_tile_from_pixel defs tp px py =
      (match defs.find? (fun d =>
          TiledToBin.pathOk (TiledToBin.cleanTp tp) d &&
          TiledToBin.regionContains d px py) with
       | some d =>
         (some d.godot_id,
          roundHalfEven (qDiv (qSub px d.region.1) d.stride.1),
          roundHalfEven (qDiv (qSub py d.region.2.1) d.stride.2))
       | none => (none, 0, 0)) := by
  unfold TiledToBin.get_godot_tile_from_pixel
  induction defs with
  | nil => rfl
  | cons d rest ih =>
    rw [TiledToBin.godotLoop, List.find?]
    cases h : TiledToBin.pathOk (TiledToBin.cleanTp tp) d &&
        TiledToBin.regionContains d px py with
    | true => simp [h]
    | false => simp only [h, if_neg Bool.false_ne_true, ih]

/-- Claim C3, counterexample.  A tile definition with region origin
`x = -1000` (accepted by the region regex) makes the forward codec
emit the negative GID `-7`: the rounded grid coordinate `-8` passes
the `grid_x < columns` guard because the code never checks the lower
bound, so `firstgid + local_id = 1 + (-8) = -7`. -/
theorem forward_gid_negative_counterexample :
    BinToTiled.forward_cell "constructmap" [(5, c3_def)]
      [(c1_atlas_path, c1_img)] 6 2 0 false = -7 ∧
    ¬ (0 : ℤ) ≤ -7 :=
  ⟨by decide, by decide⟩

/-- Claim C3, amended.  On the standard (non-icon) path, whenever the
rounded atlas grid coordinates of the resolved tile are non-negative
(in addition to the upper-bound guards the code does check), the
produced GID lies in the owning atlas's range
`[firstgid, firstgid + columns*rows)`, with bit 31 OR-ed in when the
flip flag is set; without the non-negativity assumption the GID can
fall below `firstgid` and even below zero (see the counterexample). -/
theorem forward_cell_gid_in_range (name : String)
    (td : List (ℕ × BinToTiled.TileDefinition))
    (ui : List (String × BinToTiled.ImageTileset))
    (val auto_x auto_y : ℕ) (flip : Bool)
    (t_def : BinToTiled.TileDefinition) (img_ts : BinToTiled.ImageTileset)
    (hname : ¬ name = "spawnmarker")
    (hval : 1 ≤ val)
    (htd : BinToTiled.lookupTid td ((val : ℤ) - 1) = some t_def)
    (hui : BinToTiled.lookupImage ui t_def.texture_path = some img_ts)
    (hgx0 : 0 ≤ BinToTiled.grid_x_of t_def auto_x)
    (hgx : BinToTiled.grid_x_of t_def auto_x < img_ts.cols)
    (hgy0 : 0 ≤ BinToTiled.grid_y_of t_def auto_y)
    (hgy : BinToTiled.grid_y_of t_def auto_y < img_ts.rows) :
    ∃ g : ℤ,
      BinToTiled.forward_cell name td ui val auto_x auto_y flip =
        (if flip then Int.lor g 0x80000000 else g) ∧
      img_ts.firstgid ≤ g ∧
      g < img_ts.firstgid + img_ts.cols * img_ts.rows := by
  refine ⟨img_ts.firstgid +
    (BinToTiled.grid_x_of t_def auto_x +
      BinToTiled.grid_y_of t_def auto_y * img_ts.cols), ?_, ?_, ?_⟩
  · unfold BinToTiled.forward_cell
    rw [if_pos (by omega : (0 : ℤ) ≤ (val : ℤ) - 1), if_neg hname]
    simp only [htd, hui]
    rw [if_pos ⟨hgx, hgy⟩]
  · have hc : 0 ≤ BinToTiled.grid_y_of t_def auto_y * img_ts.cols :=
      mul_nonneg hgy0 (by omega)
    omega
  · have hb : BinToTiled.grid_y_of t_def auto_y * img_ts.cols ≤
        (img_ts.rows - 1) * img_ts.cols :=
      mul_le_mul_of_nonneg_right (by omega) (by omega)
    nlinarith [hb, hgx]

/-- Claim C3, amended, witness: the concrete scenario input lands in
`[1, 5)`. -/
theorem forward_cell_gid_in_range_witness :
    ∃ g : ℤ,
      BinToTiled.forward_cell "constructmap" [(5, c1_defB)]
          [(c1_atlas_path, c1_img)] 6 2 0 false =
        (if false then Int.lor g 0x80000000 else g) ∧
      c1_img.firstgid ≤ g ∧
      g < c1_img.firstgid + c1_img.cols * c1_img.rows :=
  forward_cell_gid_in_range "constructmap" [(5, c1_defB)]
    [(c1_atlas_path, c1_img)] 6 2 0 false c1_defB c1_img
    (by decide) (by decide) (by decide) (by decide)
    (by decide) (by decide) (by decide) (by decide)

theorem get_grid_dim_nonneg (p : ℤ) : 0 ≤ BinToTiled.get_grid_dim p := by
  unfold BinToTiled.get_grid_dim
  split
  · exact le_refl 0
  · exact Int.fdiv_nonneg (by omega) (by omega)

theorem tile_count_nonneg (i : BinToTiled.ImgIn) :
    0 ≤ BinToTiled.tile_count i :=
  mul_nonneg (get_grid_dim_nonneg _) (get_grid_dim_nonneg _)

theorem assign_map_fst : ∀ (l : List BinToTiled.ImgIn) (cur : ℤ),
    (BinToTiled.assign_firstgids cur l).map Prod.fst = l := by
  intro l
  induction l with
  | nil => intro cur; rfl
  | cons a rest ih =>
    intro cur
    simp [BinToTiled.assign_firstgids, ih]

theorem assign_getElem? : ∀ (l : List BinToTiled.ImgIn) (cur : ℤ) (i : ℕ),
    (BinToTiled.assign_firstgids cur l)[i]? =
      l[i]?.map (fun a =>
        (a, cur + ((l.take i).map BinToTiled.tile_count).sum)) := by
  intro l
  induction l with
  | nil => intro cur i; rfl
  | cons a rest ih =>
    intro cur i
    cases i with
    | zero => simp [BinToTiled.assign_firstgids]
    | succ i =>
      simp only [BinToTiled.assign_firstgids, List.getElem?_cons_succ, ih,
        List.take_succ_cons, List.map_cons, List.sum_cons]
      cases rest[i]? <;> simp [add_assoc]

/-- Partial sums of a list of non-negative integers are monotone in the
length of the prefix. -/
theorem sum_take_mono (L : List ℤ) (hL : ∀ x ∈ L, 0 ≤ x) :
    ∀ {i j : ℕ}, i ≤ j → (L.take i).sum ≤ (L.take j).sum := by
  have hstep : ∀ j : ℕ, (L.take j).sum ≤ (L.take (j + 1)).sum := by
    intro j
    rcases Nat.lt_or_ge j L.length with hj | hj
    · have hs := List.sum_take_succ L j hj
      have h0 : 0 ≤ L[j] := hL _ (List.getElem_mem hj)
      omega
    · rw [List.take_of_length_le (by omega : L.length ≤ j + 1),
        List.take_of_length_le hj]
  intro i j hij
  induction j with
  | zero =>
    have : i = 0 := by omega
    subst this
    exact le_refl _
  | succ j ih =>
    by_cases hij' : i ≤ j
    · exact le_trans (ih hij') (hstep j)
    · have : i = j + 1 := by omega
      subst this
      exact le_refl _

theorem charListLe_total : ∀ xs ys, (charListLe xs ys || charListLe ys xs) = true := by
  intro xs
  induction xs with
  | nil => intro ys; simp [charListLe]
  | cons c cs ih =>
    intro ys
    cases ys with
    | nil => simp [charListLe]
    | cons d ds =>
      by_cases h1 : c.toNat < d.toNat
      · simp [charListLe, h1]
      · by_cases h2 : d.toNat < c.toNat
        · simp [charListLe, h1, h2]
        · simpa [charListLe, h1, h2] using ih ds

theorem charListLe_trans : ∀ xs ys zs, charListLe xs ys = true →
    charListLe ys zs = true → charListLe xs zs = true := by
  intro xs
  induction xs with
  | nil => intro ys zs _ _; simp [charListLe]
  | cons c cs ih =>
    intro ys zs h1 h2
    cases ys with
    | nil => simp [charListLe] at h1
    | cons d ds =>
      cases zs with
      | nil => simp [charListLe] at h2
      | cons e es =>
        simp only [charListLe] at h1 h2 ⊢
        split_ifs at h1 h2 ⊢ <;>
          first
          | rfl
          | omega
          | exact ih ds es h1 h2

/-- Claim C5.  The atlas registry of `bin_to_tiled.py`: entries come
out sorted lexicographically by path; the first entry has
`firstgid = 1`; each subsequent `firstgid` is the previous one plus the
previous atlas's `columns*rows`; and for `i < j` the `i`-th range ends
at or before the `j`-th begins (so the ranges
`[firstgid, firstgid + columns*rows)` are pairwise disjoint) and the
`firstgid`s are ascending. -/
theorem atlas_registry_ranges (imgs : List BinToTiled.ImgIn) :
    List.Pairwise (fun a b => strLe a.1.path b.1.path = true)
      (BinToTiled.atlas_registry imgs) ∧
    (∀ e rest, BinToTiled.atlas_registry imgs = e :: rest → e.2 = 1) ∧
    (∀ (i : ℕ) a b, (BinToTiled.atlas_registry imgs)[i]? = some a →
      (BinToTiled.atlas_registry imgs)[i + 1]? = some b →
      b.2 = a.2 + BinToTiled.tile_count a.1) ∧
    (∀ (i j : ℕ) a b, i < j →
      (BinToTiled.atlas_registry imgs)[i]? = some a →
      (BinToTiled.atlas_registry imgs)[j]? = some b →
      a.2 + BinToTiled.tile_count a.1 ≤ b.2 ∧ a.2 ≤ b.2) := by
  have htrans : ∀ (a b c : BinToTiled.ImgIn),
      strLe a.path b.path = true → strLe b.path c.path = true →
      strLe a.path c.path = true := by
    intro a b c hab hbc
    exact charListLe_trans _ _ _ hab hbc
  have htotal : ∀ (a b : BinToTiled.ImgIn),
      (strLe a.path b.path || strLe b.path a.path) = true := by
    intro a b
    exact charListLe_total _ _
  have hsorted :=
    @List.sorted_mergeSort _ (fun a b => strLe a.path b.path)
      htrans htotal imgs
  set S := imgs.mergeSort (fun a b => strLe a.path b.path) with hS
  have hcount : ∀ x ∈ S.map BinToTiled.tile_count, (0 : ℤ) ≤ x := by
    intro x hx
    rcases List.mem_map.mp hx with ⟨s, _, rfl⟩
    exact tile_count_nonneg s
  have hreg : BinToTiled.atlas_registry imgs =
      BinToTiled.assign_firstgids 1 S := rfl
  have hget : ∀ (i : ℕ) a,
      (BinToTiled.atlas_registry imgs)[i]? = some a →
      ∃ hi : i < S.length, a = (S[i],
        1 + ((S.map BinToTiled.tile_count).take i).sum) := by
    intro i a ha
    rw [hreg, assign_getElem?] at ha
    cases hSi : S[i]? with
    | none => rw [hSi] at ha; cases ha
    | some s =>
      rw [hSi] at ha
      have hi : i < S.length := by
        by_contra hc
        rw [List.getElem?_eq_none (by omega)] at hSi
        cases hSi
      refine ⟨hi, ?_⟩
      have hs : S[i] = s := by
        have := List.getElem?_eq_getElem hi
        rw [this] at hSi
        exact (Option.some_inj.mp hSi)
      simp only [Option.map_some'] at ha
      have ha2 := Option.some_inj.mp ha
      rw [← ha2, hs, List.map_take]
  refine ⟨?_, ?_, ?_, ?_⟩
  · rw [hreg]
    have hmap := assign_map_fst S 1
    have hp :
        ((BinToTiled.assign_firstgids 1 S).map Prod.fst).Pairwise
          (fun a b => strLe a.path b.path = true) := by
      rw [hmap]
      exact hsorted
    exact List.pairwise_map.mp hp
  · intro e rest heq
    rw [hreg] at heq
    cases hC : S with
    | nil =>
      rw [hC] at heq
      simp [BinToTiled.assign_firstgids] at heq
    | cons a l =>
      rw [hC] at heq
      simp only [BinToTiled.assign_firstgids, List.cons.injEq] at heq
      rw [← heq.1]
  · intro i a b ha hb
    rcases hget i a ha with ⟨hi, rfl⟩
    rcases hget (i + 1) b hb with ⟨hi1, rfl⟩
    have hlen : i < (S.map BinToTiled.tile_count).length := by
      simpa using hi
    have hs := List.sum_take_succ (S.map BinToTiled.tile_count) i hlen
    have hgm : (S.map BinToTiled.tile_count)[i] = BinToTiled.tile_count S[i] :=
      List.getElem_map _
    show 1 + ((S.map BinToTiled.tile_count).take (i + 1)).sum =
      1 + ((S.map BinToTiled.tile_count).take i).sum + BinToTiled.tile_count S[i]
    rw [hgm] at hs
    omega
  · intro i j a b hij ha hb
    rcases hget i a ha with ⟨hi, rfl⟩
    rcases hget j b hb with ⟨hj, rfl⟩
    have hlen : i < (S.map BinToTiled.tile_count).length := by
      simpa using hi
    have hs := List.sum_take_succ (S.map BinToTiled.tile_count) i hlen
    have hgm : (S.map BinToTiled.tile_count)[i] = BinToTiled.tile_count S[i] :=
      List.getElem_map _
    have hmono := sum_take_mono (S.map BinToTiled.tile_count) hcount
      (show i + 1 ≤ j by omega)
    have hmono2 := sum_take_mono (S.map BinToTiled.tile_count) hcount
      (show i ≤ j by omega)
    rw [hgm] at hs
    constructor
    · show 1 + ((S.map BinToTiled.tile_count).take i).sum +
        BinToTiled.tile_count S[i] ≤
          1 + ((S.map BinToTiled.tile_count).take j).sum
      omega
    · show 1 + ((S.map BinToTiled.tile_count).take i).sum ≤
        1 + ((S.map BinToTiled.tile_count).take j).sum
      omega

/-- Claim C5, witness: two concrete images get `firstgid` 1 and 3 and
the first range `[1, 3)` ends before the second begins. -/
theorem atlas_registry_ranges_witness :
    (BinToTiled.atlas_registry c5_imgs)[0]? = some (c5_imgA, 1) ∧
    (BinToTiled.atlas_registry c5_imgs)[1]? = some (c5_imgB, 3) ∧
    (1 : ℤ) + BinToTiled.tile_count c5_imgA ≤ 3 ∧ (1 : ℤ) ≤ 3 := by
  have hsort : c5_imgs.mergeSort (fun a b => strLe a.path b.path) =
      c5_imgs :=
    List.mergeSort_of_sorted (by decide)
  have h0 : (BinToTiled.atlas_registry c5_imgs)[0]? = some (c5_imgA, 1) := by
    unfold BinToTiled.atlas_registry
    rw [hsort]
    decide
  have h1 : (BinToTiled.atlas_registry c5_imgs)[1]? = some (c5_imgB, 3) := by
    unfold BinToTiled.atlas_registry
    rw [hsort]
    decide
  have H := (atlas_registry_ranges c5_imgs).2.2.2 0 1 (c5_imgA, 1) (c5_imgB, 3)
    (by omega) h0 h1
  exact ⟨h0, h1, H.1, H.2⟩

theorem GID_MASK_eq : GID_MASK = 2 ^ 29 - 1 := by decide

theorem FLAG_eq : FLIPPED_HORIZONTALLY_FLAG = 2 ^ 31 := by decide

/-- Toggling bit 31 does not change the masked gid: the flip flag and
the gid mask occupy disjoint bits. -/
theorem xor_flag_and_mask (raw : ℕ) :
    (raw ^^^ FLIPPED_HORIZONTALLY_FLAG) &&& GID_MASK = raw &&& GID_MASK := by
  rw [FLAG_eq, GID_MASK_eq]
  apply Nat.eq_of_testBit_eq
  intro i
  simp only [Nat.testBit_and, Nat.testBit_xor, Nat.testBit_two_pow_sub_one,
    Nat.testBit_two_pow]
  by_cases h : i < 29
  · have h31 : ¬(31 = i) := by omega
    simp [h, h31]
  · simp [h]

/-- `x &&& flag` vanishes exactly when bit 31 of `x` is clear. -/
theorem and_flag_eq_zero_iff (x : ℕ) :
    x &&& FLIPPED_HORIZONTALLY_FLAG = 0 ↔ x.testBit 31 = false := by
  rw [FLAG_eq]
  have h31 : Nat.testBit 2147483648 31 = true := by decide
  constructor
  · intro h
    have h2 := congrArg (fun n => n.testBit 31) h
    simpa [Nat.testBit_and, h31] using h2
  · intro h
    apply Nat.eq_of_testBit_eq
    intro i
    simp only [Nat.testBit_and, Nat.testBit_two_pow, Nat.zero_testBit]
    by_cases hi : 31 = i
    · subst hi
      simp [h]
    · simp [hi]

/-- Bit 31 of `raw ^^^ flag` is the negation of bit 31 of `raw`. -/
theorem xor_flag_testBit (raw : ℕ) :
    (raw ^^^ FLIPPED_HORIZONTALLY_FLAG).testBit 31 = !raw.testBit 31 := by
  rw [FLAG_eq]
  have h31 : Nat.testBit 2147483648 31 = true := by decide
  simp [Nat.testBit_xor, h31]

/-- `cell_bytes` unfolded to `Option.bind` form. -/
theorem cell_bytes_eq (name : String) (t : ℕ)
    (ts : List TiledToBin.TilesetInfo) (defs : List TiledToBin.TileDefinition)
    (raw : ℕ) :
    TiledToBin.cell_bytes name t ts defs raw =
      (pack8 (TiledToBin.decode_core name ts defs (raw &&& GID_MASK)).1).bind
        (fun b0 =>
          if t = TYPE_AUTOTILE then
            (pack8 (TiledToBin.decode_core name ts defs (raw &&& GID_MASK)).2.1).bind
              (fun b1 =>
                (pack8 (TiledToBin.decode_core name ts defs (raw &&& GID_MASK)).2.2).bind
                  (fun b2 => some [b0, b1, b2]))
          else if t = TYPE_FLIP then
            some [b0, if decide (raw &&& FLIPPED_HORIZONTALLY_FLAG ≠ 0) then 1 else 0]
          else some [b0]) := rfl

/-- Claim C7.  Toggling bit 31 of an interchange cell value leaves the
masked gid — hence the resolved tileset, the grid coordinate and the
whole `(final_id, auto_x, auto_y)` decode — unchanged; it flips the
extracted flip boolean; the emitted bytes are identical on non-`FLIP`
layers, and on `FLIP` layers they differ exactly in the final flip
byte. -/
theorem flip_flag_isolation (raw : ℕ) (name : String) (t : ℕ)
    (ts : List TiledToBin.TilesetInfo)
    (defs : List TiledToBin.TileDefinition) :
    ((raw ^^^ FLIPPED_HORIZONTALLY_FLAG) &&& GID_MASK = raw &&& GID_MASK) ∧
    TiledToBin.findTarget ((raw ^^^ FLIPPED_HORIZONTALLY_FLAG) &&& GID_MASK) ts =
      TiledToBin.findTarget (raw &&& GID_MASK) ts ∧
    TiledToBin.decode_core name ts defs
        ((raw ^^^ FLIPPED_HORIZONTALLY_FLAG) &&& GID_MASK) =
      TiledToBin.decode_core name ts defs (raw &&& GID_MASK) ∧
    decide ((raw ^^^ FLIPPED_HORIZONTALLY_FLAG) &&& FLIPPED_HORIZONTALLY_FLAG ≠ 0) =
      !decide (raw &&& FLIPPED_HORIZONTALLY_FLAG ≠ 0) ∧
    (¬ t = TYPE_FLIP →
      TiledToBin.cell_bytes name t ts defs (raw ^^^ FLIPPED_HORIZONTALLY_FLAG) =
        TiledToBin.cell_bytes name t ts defs raw) ∧
    (∀ bs, TiledToBin.cell_bytes name TYPE_FLIP ts defs raw = some bs →
      ∃ b0 fb, bs = [b0, fb] ∧
        TiledToBin.cell_bytes name TYPE_FLIP ts defs
            (raw ^^^ FLIPPED_HORIZONTALLY_FLAG) =
          some [b0, 1 - fb]) := by
  have hm := xor_flag_and_mask raw
  have hflag :
      decide ((raw ^^^ FLIPPED_HORIZONTALLY_FLAG) &&& FLIPPED_HORIZONTALLY_FLAG ≠ 0) =
        !decide (raw &&& FLIPPED_HORIZONTALLY_FLAG ≠ 0) := by
    by_cases hb : raw.testBit 31
    · have hA : ¬ raw &&& FLIPPED_HORIZONTALLY_FLAG = 0 := by
        rw [and_flag_eq_zero_iff]
        simp [hb]
      have hB : (raw ^^^ FLIPPED_HORIZONTALLY_FLAG) &&& FLIPPED_HORIZONTALLY_FLAG = 0 := by
        rw [and_flag_eq_zero_iff, xor_flag_testBit, hb]
        rfl
      simp [hA, hB]
    · have hA : raw &&& FLIPPED_HORIZONTALLY_FLAG = 0 := by
        rw [and_flag_eq_zero_iff]
        simpa using hb
      have hB : ¬ (raw ^^^ FLIPPED_HORIZONTALLY_FLAG) &&& FLIPPED_HORIZONTALLY_FLAG = 0 := by
        rw [and_flag_eq_zero_iff, xor_flag_testBit]
        simpa using hb
      simp [hA, hB]
  refine ⟨hm, by rw [hm], by rw [hm], hflag, ?_, ?_⟩
  · intro ht
    rw [cell_bytes_eq, cell_bytes_eq, hm]
    cases hp : pack8 (TiledToBin.decode_core name ts defs (raw &&& GID_MASK)).1 with
    | none => rfl
    | some b0 =>
      simp only [Option.some_bind]
      by_cases hA : t = TYPE_AUTOTILE
      · simp [hA]
      · rw [if_neg hA, if_neg ht, if_neg hA, if_neg ht]
  · intro bs hbs
    rw [cell_bytes_eq] at hbs
    have hft : ¬ TYPE_FLIP = TYPE_AUTOTILE := by decide
    cases hp : pack8 (TiledToBin.decode_core name ts defs (raw &&& GID_MASK)).1 with
    | none => rw [hp] at hbs; exact absurd hbs (by simp)
    | some b0 =>
      rw [hp] at hbs
      simp only [Option.some_bind, if_neg hft, if_pos rfl] at hbs
      refine ⟨b0, if decide (raw &&& FLIPPED_HORIZONTALLY_FLAG ≠ 0) then 1 else 0,
        ?_, ?_⟩
      · exact (Option.some_inj.mp hbs).symm
      · rw [cell_bytes_eq, hm, hp]
        simp only [Option.some_bind, if_neg hft, if_pos rfl, hflag]
        cases hd : decide (raw &&& FLIPPED_HORIZONTALLY_FLAG ≠ 0) <;> simp [hd]

/-- Claim C7, witness: at `raw = 3` with the scenario tileset, the
non-`FLIP` bytes agree and the `FLIP` bytes differ exactly in the flip
byte. -/
theorem flip_flag_isolation_witness :
    TiledToBin.cell_bytes "paths" TYPE_SIMPLE [c1_tileset] [c1_def]
        (3 ^^^ FLIPPED_HORIZONTALLY_FLAG) =
      TiledToBin.cell_bytes "paths" TYPE_SIMPLE [c1_tileset] [c1_def] 3 ∧
    (∃ b0 fb, ([0, 0] : List ℕ) = [b0, fb] ∧
      TiledToBin.cell_bytes "features" TYPE_FLIP [c1_tileset] [c1_def]
          (3 ^^^ FLIPPED_HORIZONTALLY_FLAG) =
        some [b0, 1 - fb]) :=
  ⟨(flip_flag_isolation 3 "paths" TYPE_SIMPLE [c1_tileset] [c1_def]).2.2.2.2.1
      (by decide),
   (flip_flag_isolation 3 "features" TYPE_FLIP [c1_tileset] [c1_def]).2.2.2.2.2
      [0, 0] (by decide)⟩

/-- Claim C6.  A cell whose interchange value is GID 0 decodes on the
reverse path to tile-index byte 0 with all auxiliary bytes zero — two
zero autotile bytes for `AUTOTILE`, one zero flip byte for `FLIP`,
nothing for any other encoding value — for every layer, tileset list
and definition list. -/
theorem gid_zero_decodes_empty (name : String) (t : ℕ)
    (ts : List TiledToBin.TilesetInfo)
    (defs : List TiledToBin.TileDefinition) :
    TiledToBin.cell_bytes name t ts defs 0 =
      some (0 :: (if t = TYPE_AUTOTILE then [0, 0]
        else if t = TYPE_FLIP then [0] else [])) := by
  have h0 : (0 : ℕ) &&& FLIPPED_HORIZONTALLY_FLAG = 0 := Nat.zero_and _
  have h1 : (0 : ℕ) &&& GID_MASK = 0 := Nat.zero_and _
  simp only [TiledToBin.cell_bytes, h0, h1, TiledToBin.decode_core]
  norm_num [pack8]
  split_ifs <;> rfl

/-- Claim C10.  A declared map width or height above 255 makes the
reverse conversion fail with a `struct.error` (no binary file with
wrapped-around dimensions is produced). -/
theorem oversize_dimension_aborts (w h : ℤ)
    (ts : List TiledToBin.TilesetInfo)
    (tmx : String → Option (ℕ × ℕ → ℕ))
    (defs : String → List TiledToBin.TileDefinition)
    (hgt : 255 < w ∨ 255 < h) :
    TiledToBin.convert_tmx_to_bin w h ts tmx defs = none := by
  unfold TiledToBin.convert_tmx_to_bin
  rcases hgt with hw | hh
  · have hp : pack8 w = none := by
      simp only [pack8, ite_eq_right_iff]
      intro hc
      omega
    simp [hp]
  · have hp : pack8 h = none := by
      simp only [pack8, ite_eq_right_iff]
      intro hc
      omega
    cases hq : pack8 w <;> simp [hq, hp]

/-- Claim C10, witness: a 256-wide map aborts. -/
theorem oversize_dimension_aborts_witness :
    TiledToBin.convert_tmx_to_bin 256 1 [] (fun _ => none) (fun _ => []) = none :=
  oversize_dimension_aborts 256 1 [] (fun _ => none) (fun _ => [])
    (Or.inl (by norm_num))

theorem readCells_getD {α : Type} (stream : ℕ → α) (d : α) :
    ∀ (n c i : ℕ), i < n →
      (BinToTiled.readCells stream c n).getD i d = stream (c + i) := by
  intro n
  induction n with
  | zero => intro c i h; omega
  | succ n ih =>
    intro c i h
    cases i with
    | zero => rfl
    | succ i =>
      show (BinToTiled.readCells stream (c + 1) n).getD i d = stream (c + (i + 1))
      rw [ih (c + 1) i (by omega)]
      congr 1
      omega

theorem readCols_getD {α : Type} (stream : ℕ → α) (h : ℕ) :
    ∀ (n c x : ℕ), x < n →
      (BinToTiled.readCols stream c h n).getD x [] =
        BinToTiled.readCells stream (c + x * h) h := by
  intro n
  induction n with
  | zero => intro c x hx; omega
  | succ n ih =>
    intro c x hx
    cases x with
    | zero =>
      show BinToTiled.readCells stream c h = BinToTiled.readCells stream (c + 0 * h) h
      congr 1
      omega
    | succ x =>
      show (BinToTiled.readCols stream (c + h) h n).getD x [] =
        BinToTiled.readCells stream (c + (x + 1) * h) h
      rw [ih (c + h) x (by omega)]
      congr 1
      ring

/-- The cell consumed at column-major stream position `x*h + y` is
`layer_gids[x][y]`. -/
theorem layer_cols_cell {α : Type} (stream : ℕ → α) (d : α)
    (w h x y : ℕ) (hx : x < w) (hy : y < h) :
    ((BinToTiled.layer_cols w h stream).getD x []).getD y d =
      stream (x * h + y) := by
  unfold BinToTiled.layer_cols
  rw [readCols_getD stream h w 0 x hx, readCells_getD stream d h (0 + x * h) y hy]
  congr 1
  omega

theorem blocks_length {α : Type} (w : ℕ) (g : ℕ → ℕ → α) :
    ∀ h : ℕ, ((List.range h).flatMap (fun y => (List.range w).map (g y))).length =
      h * w := by
  intro h
  induction h with
  | zero => simp
  | succ h ih =>
    rw [List.range_succ, List.flatMap_append, List.length_append, ih,
      List.flatMap_cons, List.flatMap_nil, List.append_nil, List.length_map,
      List.length_range]
    ring

/-- Indexing into a flat row-major concatenation of `w`-wide blocks. -/
theorem flatMap_blocks_getD {α : Type} (d : α) (w : ℕ) (g : ℕ → ℕ → α) :
    ∀ (h y x : ℕ), y < h → x < w →
      ((List.range h).flatMap (fun y => (List.range w).map (g y))).getD
        (y * w + x) d = g y x := by
  intro h
  induction h with
  | zero => intro y x hy; omega
  | succ h ih =>
    intro y x hy hx
    rw [List.range_succ, List.flatMap_append]
    by_cases hyh : y < h
    · rw [List.getD_append]
      · exact ih y x hyh hx
      · rw [blocks_length]
        calc y * w + x < y * w + w := by omega
        _ = (y + 1) * w := by ring
        _ ≤ h * w := Nat.mul_le_mul_right w (by omega)
    · have hyeq : y = h := by omega
      subst hyeq
      rw [List.getD_append_right]
      · rw [List.flatMap_cons, List.flatMap_nil, List.append_nil,
          blocks_length, Nat.add_sub_cancel_left,
          List.getD_eq_getElem?_getD, List.getElem?_map,
          List.getElem?_range hx, Option.map_some', Option.getD_some]
      · rw [blocks_length]
        omega

/-- The grid-filling loop writes the gid at flat index `i` to the cell
`(i % w, i / w)` and touches no other cell. -/
theorem buildGridAux_spec (w h : ℕ) (hw : 0 < w) :
    ∀ (gids : List ℕ) (i : ℕ) (g : ℕ × ℕ → ℕ) (x y : ℕ), x < w → y < h →
      TiledToBin.buildGridAux w h i gids g (x, y) =
        if i ≤ y * w + x ∧ y * w + x < i + gids.length then
          gids.getD (y * w + x - i) 0
        else g (x, y) := by
  intro gids
  induction gids with
  | nil =>
    intro i g x y hx hy
    rw [TiledToBin.buildGridAux]
    rw [if_neg]
    intro hc
    simp only [List.length_nil] at hc
    omega
  | cons raw rest ih =>
    intro i g x y hx hy
    rw [TiledToBin.buildGridAux, ih (i + 1) _ x y hx hy]
    have hidx : i % w < w := Nat.mod_lt _ hw
    have hlen : (raw :: rest).length = rest.length + 1 := List.length_cons raw rest
    by_cases h1 : i + 1 ≤ y * w + x ∧ y * w + x < i + 1 + rest.length
    · rw [if_pos h1, if_pos (by omega)]
      rw [show y * w + x - i = (y * w + x - (i + 1)) + 1 by omega,
        List.getD_cons_succ]
    · rw [if_neg h1]
      by_cases h2 : i = y * w + x
      · have hx' : i % w = x := by
          rw [h2, Nat.add_comm, Nat.add_mul_mod_self_right, Nat.mod_eq_of_lt hx]
        have hy' : i / w = y := by
          rw [h2, Nat.mul_comm y w, Nat.mul_add_div hw, Nat.div_eq_of_lt hx]
          omega
        rw [if_pos (show i % w < w ∧ i / w < h from ⟨hidx, by
          rw [hy']
          exact hy⟩)]
        show (if ((x : ℕ), y) = (i % w, i / w) then raw else g (x, y)) =
          if i ≤ y * w + x ∧ y * w + x < i + (raw :: rest).length then
            (raw :: rest).getD (y * w + x - i) 0
          else g (x, y)
        rw [if_pos (show ((x : ℕ), y) = (i % w, i / w) by rw [hx', hy'])]
        rw [if_pos (show i ≤ y * w + x ∧
            y * w + x < i + (raw :: rest).length by omega)]
        rw [show y * w + x - i = 0 by omega]
        rfl
      · have hne : ¬ (((x : ℕ), y) = (i % w, i / w)) := by
          intro hc
          have hx' : x = i % w := (Prod.mk.injEq _ _ _ _ ▸ hc).1
          have hy' : y = i / w := (Prod.mk.injEq _ _ _ _ ▸ hc).2
          have : y * w + x = i := by
            rw [hx', hy', Nat.mul_comm]
            exact Nat.div_add_mod i w
          omega
        rw [if_neg (show ¬ (i ≤ y * w + x ∧
            y * w + x < i + (raw :: rest).length) by omega)]
        by_cases h3 : i % w < w ∧ i / w < h
        · rw [if_pos h3]
          show (if ((x : ℕ), y) = (i % w, i / w) then raw else g (x, y)) =
            g (x, y)
          rw [if_neg hne]
        · rw [if_neg h3]

/-- `buildGrid` puts flat row-major index `y*w + x` at column-major
cell `(x, y)`. -/
theorem buildGrid_getD (w h : ℕ) (gids : List ℕ) (x y : ℕ)
    (hw : 0 < w) (hx : x < w) (hy : y < h) :
    TiledToBin.buildGrid w h gids (x, y) = gids.getD (y * w + x) 0 := by
  unfold TiledToBin.buildGrid
  rw [buildGridAux_spec w h hw gids 0 _ x y hx hy]
  by_cases hin : y * w + x < gids.length
  · rw [if_pos (by omega), Nat.sub_zero]
  · rw [if_neg (by omega), List.getD_eq_default _ _ (by omega)]

/-- Claim C4.  The codecs perform an exact column-major/row-major
transposition.  Forward: the binary cell consumed at column-major
stream position `x*h + y` lands at flat row-major index `y*w + x` of
the emitted CSV.  Reverse: the flat TMX gid at index `y*w + x` is
stored at binary cell `(x, y)`, equivalently flat index `i` maps to
cell `(i % w, i / w)`. -/
theorem codec_transposition :
    (∀ (stream : ℕ → ℕ) (d : ℕ) (w h x y : ℕ), x < w → y < h →
      (BinToTiled.csv_flat w h (BinToTiled.layer_cols w h stream) d).getD
        (y * w + x) d = stream (x * h + y)) ∧
    (∀ (w h : ℕ) (gids : List ℕ) (x y : ℕ), 0 < w → x < w → y < h →
      TiledToBin.buildGrid w h gids (x, y) = gids.getD (y * w + x) 0) ∧
    (∀ (w h : ℕ) (gids : List ℕ) (i : ℕ), 0 < w → i / w < h →
      TiledToBin.buildGrid w h gids (i % w, i / w) = gids.getD i 0) := by
  refine ⟨?_, ?_, ?_⟩
  · intro stream d w h x y hx hy
    unfold BinToTiled.csv_flat
    rw [flatMap_blocks_getD d w _ h y x hy hx]
    exact layer_cols_cell stream d w h x y hx hy
  · intro w h gids x y hw hx hy
    exact buildGrid_getD w h gids x y hw hx hy
  · intro w h gids i hw hi
    rw [buildGrid_getD w h gids (i % w) (i / w) hw (Nat.mod_lt _ hw) hi]
    congr 1
    rw [Nat.mul_comm]
    exact Nat.div_add_mod i w

/-- Claim C4, witness: on a 2 by 3 grid, stream cell 5 (column 1,
row 2) lands at flat index 5 and flat index 3 is stored at cell
`(1, 1)`. -/
theorem codec_transposition_witness :
    (BinToTiled.csv_flat 2 3 (BinToTiled.layer_cols 2 3 (fun n => 10 + n)) 0).getD
      (2 * 2 + 1) 0 = 10 + (1 * 3 + 2) ∧
    TiledToBin.buildGrid 2 3 [40, 41, 42, 43, 44, 45] (1, 1) =
      [40, 41, 42, 43, 44, 45].getD (1 * 2 + 1) 0 ∧
    TiledToBin.buildGrid 2 3 [40, 41, 42, 43, 44, 45] (3 % 2, 3 / 2) =
      [40, 41, 42, 43, 44, 45].getD 3 0 :=
  ⟨codec_transposition.1 (fun n => 10 + n) 0 2 3 1 2 (by omega) (by omega),
   codec_transposition.2.1 2 3 [40, 41, 42, 43, 44, 45] 1 1 (by omega)
     (by omega) (by omega),
   codec_transposition.2.2 2 3 [40, 41, 42, 43, 44, 45] 3 (by omega) (by omega)⟩

/-- A cell holding the raw value 0 always emits `cell_width t` zero
bytes. -/
theorem cell_bytes_zero (name : String) (t : ℕ)
    (ts : List TiledToBin.TilesetInfo)
    (defs : List TiledToBin.TileDefinition) :
    TiledToBin.cell_bytes name t ts defs 0 =
      some (List.replicate (cell_width t) 0) := by
  rw [cell_bytes_eq]
  have hz : (0 : ℕ) &&& GID_MASK = 0 := Nat.zero_and _
  have hz2 : (0 : ℕ) &&& FLIPPED_HORIZONTALLY_FLAG = 0 := Nat.zero_and _
  have hd : TiledToBin.decode_core name ts defs (0 &&& GID_MASK) = (0, 0, 0) := by
    rw [hz]
    simp [TiledToBin.decode_core]
  rw [hd]
  simp only [hz2, pack8, cell_width]
  norm_num
  split_ifs <;> rfl

/-- The cells of an absent layer are all zero. -/
theorem cellsOf_none (w h : ℕ) :
    TiledToBin.cellsOf w h none = List.replicate (w * h) 0 := by
  unfold TiledToBin.cellsOf
  simp only [Option.map_none', Option.getD_none]
  induction w with
  | zero => simp
  | succ w ih =>
    rw [List.range_succ, List.flatMap_append, ih, List.flatMap_cons,
      List.flatMap_nil, List.append_nil, List.map_const', List.length_range,
      ← List.replicate_add]
    congr 1
    ring

/-- Reading `n` zero cells through the codec yields `n` zero rows. -/
theorem mapM_cell_bytes_replicate (name : String) (t : ℕ)
    (ts : List TiledToBin.TilesetInfo)
    (defs : List TiledToBin.TileDefinition) :
    ∀ n : ℕ, (List.replicate n 0).mapM (TiledToBin.cell_bytes name t ts defs) =
      some (List.replicate n (List.replicate (cell_width t) 0)) := by
  intro n
  induction n with
  | zero => rfl
  | succ n ih =>
    rw [List.replicate_succ, List.mapM_cons, cell_bytes_zero, ih,
      List.replicate_succ]
    rfl

/-- Flattening `n` copies of a `k`-length zero row gives `n*k`
zeros. -/
theorem flatten_replicate_zeros (n k : ℕ) :
    (List.replicate n (List.replicate k (0 : ℕ))).flatten =
      List.replicate (n * k) 0 := by
  induction n with
  | zero => simp
  | succ n ih =>
    rw [List.replicate_succ, List.flatten_cons, ih, ← List.replicate_add]
    congr 1
    ring

/-- An absent layer still contributes a full, all-zero chunk. -/
theorem layer_chunk_none (w h : ℕ) (name : String)
    (ts : List TiledToBin.TilesetInfo)
    (defs : List TiledToBin.TileDefinition) :
    TiledToBin.layer_chunk w h name ts none defs =
      some (List.replicate (cell_width (layerType name) * (w * h)) 0) := by
  unfold TiledToBin.layer_chunk
  rw [cellsOf_none, mapM_cell_bytes_replicate, Option.map_some',
    flatten_replicate_zeros, Nat.mul_comm]

/-- Every successfully encoded cell is `cell_width t` bytes long. -/
theorem cell_bytes_length (name : String) (t : ℕ)
    (ts : List TiledToBin.TilesetInfo)
    (defs : List TiledToBin.TileDefinition) (raw : ℕ) (bs : List ℕ) :
    TiledToBin.cell_bytes name t ts defs raw = some bs →
    bs.length = cell_width t := by
  rw [cell_bytes_eq]
  intro h
  cases hp : pack8 (TiledToBin.decode_core name ts defs (raw &&& GID_MASK)).1 with
  | none => rw [hp] at h; cases h
  | some b0 =>
    rw [hp, Option.some_bind] at h
    by_cases h1 : t = TYPE_AUTOTILE
    · rw [if_pos h1] at h
      cases hp1 : pack8 (TiledToBin.decode_core name ts defs (raw &&& GID_MASK)).2.1 with
      | none => rw [hp1] at h; cases h
      | some b1 =>
        rw [hp1, Option.some_bind] at h
        cases hp2 : pack8 (TiledToBin.decode_core name ts defs (raw &&& GID_MASK)).2.2 with
        | none => rw [hp2] at h; cases h
        | some b2 =>
          rw [hp2, Option.some_bind] at h
          rw [← Option.some_inj.mp h, h1]
          rfl
    · rw [if_neg h1] at h
      by_cases h2 : t = TYPE_FLIP
      · rw [if_pos h2] at h
        rw [← Option.some_inj.mp h, h2]
        rfl
      · rw [if_neg h2] at h
        rw [← Option.some_inj.mp h]
        simp [cell_width, h1, h2]

/-- A layer's cell list has `w*h` entries. -/
theorem cellsOf_length (w h : ℕ) (grid : Option (ℕ × ℕ → ℕ)) :
    (TiledToBin.cellsOf w h grid).length = w * h := by
  unfold TiledToBin.cellsOf
  rw [List.length_flatMap]
  induction w with
  | zero => simp
  | succ w ih =>
    rw [List.range_succ, List.map_append, List.sum_append, ih]
    simp only [List.map_cons, List.map_nil, Function.comp_apply,
      List.length_map, List.length_range, List.sum_cons, List.sum_nil]
    ring

/-- A successfully encoded layer chunk is `cell_width * w * h` bytes
long. -/
theorem layer_chunk_length (w h : ℕ) (name : String)
    (ts : List TiledToBin.TilesetInfo) (grid : Option (ℕ × ℕ → ℕ))
    (defs : List TiledToBin.TileDefinition) (bs : List ℕ) :
    TiledToBin.layer_chunk w h name ts grid defs = some bs →
    bs.length = cell_width (layerType name) * (w * h) := by
  unfold TiledToBin.layer_chunk
  intro h'
  cases hm : (TiledToBin.cellsOf w h grid).mapM
      (TiledToBin.cell_bytes name (layerType name) ts defs) with
  | none => rw [hm] at h'; cases h'
  | some ys =>
    rw [hm, Option.map_some'] at h'
    rw [← Option.some_inj.mp h']
    have hlen : ∀ (cells : List ℕ) (zs : List (List ℕ)),
        cells.mapM (TiledToBin.cell_bytes name (layerType name) ts defs) =
          some zs →
        zs.flatten.length = cell_width (layerType name) * cells.length := by
      intro cells
      induction cells with
      | nil =>
        intro zs hz
        rw [List.mapM_nil] at hz
        rw [← Option.some_inj.mp hz]
        rfl
      | cons c cs ih =>
        intro zs hz
        rw [List.mapM_cons] at hz
        cases hb : TiledToBin.cell_bytes name (layerType name) ts defs c with
        | none => rw [hb] at hz; cases hz
        | some b =>
          rw [hb] at hz
          cases hbs : cs.mapM (TiledToBin.cell_bytes name (layerType name) ts defs) with
          | none => rw [hbs] at hz; cases hz
          | some rest =>
            rw [hbs] at hz
            have hz2 : some (b :: rest) = some zs := hz
            rw [← Option.some_inj.mp hz2]
            rw [List.flatten_cons, List.length_append, ih rest hbs,
              cell_bytes_length name (layerType name) ts defs c b hb,
              List.length_cons]
            ring
    rw [hlen _ ys hm, cellsOf_length]

/-- Claim C9.  A layer absent from the TMX input still emits
`width*height` cells of `cell_width` zero bytes each; and whenever the
conversion succeeds, the output is exactly 2 dimension bytes, 38 bytes
per cell across the 17 fixed layers, and 1 trailing sentinel,
independent of which layers are present. -/
theorem missing_layer_padding_and_length :
    (∀ (w h : ℕ) (name : String) (ts : List TiledToBin.TilesetInfo)
      (defs : List TiledToBin.TileDefinition),
      TiledToBin.layer_chunk w h name ts none defs =
        some (List.replicate (cell_width (layerType name) * (w * h)) 0)) ∧
    (∀ (mw mh : ℤ) (ts : List TiledToBin.TilesetInfo)
      (tmx : String → Option (ℕ × ℕ → ℕ))
      (defs : String → List TiledToBin.TileDefinition) (bs : List ℕ),
      TiledToBin.convert_tmx_to_bin mw mh ts tmx defs = some bs →
      bs.length = 2 + 38 * (mw.toNat * mh.toNat) + 1) := by
  constructor
  · exact layer_chunk_none
  · intro mw mh ts tmx defs bs h
    unfold TiledToBin.convert_tmx_to_bin at h
    cases hw : pack8 mw with
    | none => rw [hw] at h; cases h
    | some wb =>
      rw [hw] at h
      cases hh : pack8 mh with
      | none => rw [hh] at h; cases h
      | some hb =>
        rw [hh] at h
        simp only [Option.some_bind] at h
        cases hc : BINARY_WRITE_ORDER.mapM (fun name =>
            TiledToBin.layer_chunk mw.toNat mh.toNat name
              (TiledToBin.sortTilesetsDesc ts) (tmx name) (defs name)) with
        | none => rw [hc] at h; cases h
        | some chunks =>
          rw [hc] at h
          simp only [Option.some_bind, pack8] at h
          norm_num at h
          have hflat : ∀ (names : List String) (cs : List (List ℕ)),
              names.mapM (fun name =>
                TiledToBin.layer_chunk mw.toNat mh.toNat name
                  (TiledToBin.sortTilesetsDesc ts) (tmx name) (defs name)) =
                some cs →
              cs.flatten.length =
                (names.map (fun n => cell_width (layerType n))).sum *
                  (mw.toNat * mh.toNat) := by
            intro names
            induction names with
            | nil =>
              intro cs hcs
              rw [List.mapM_nil] at hcs
              rw [← Option.some_inj.mp hcs]
              simp
            | cons n ns ih =>
              intro cs hcs
              rw [List.mapM_cons] at hcs
              cases hb1 : TiledToBin.layer_chunk mw.toNat mh.toNat n
                  (TiledToBin.sortTilesetsDesc ts) (tmx n) (defs n) with
              | none => rw [hb1] at hcs; cases hcs
              | some c0 =>
                rw [hb1] at hcs
                cases hb2 : ns.mapM (fun name =>
                    TiledToBin.layer_chunk mw.toNat mh.toNat name
                      (TiledToBin.sortTilesetsDesc ts) (tmx name) (defs name)) with
                | none => rw [hb2] at hcs; cases hcs
                | some rest =>
                  rw [hb2] at hcs
                  have hcs2 : some (c0 :: rest) = some cs := hcs
                  rw [← Option.some_inj.mp hcs2]
                  rw [List.flatten_cons, List.length_append,
                    layer_chunk_length _ _ _ _ _ _ _ hb1, ih rest hb2,
                    List.map_cons, List.sum_cons]
                  ring
          have h38 : (BINARY_WRITE_ORDER.map
              (fun n => cell_width (layerType n))).sum = 38 := by decide
          have hl := hflat BINARY_WRITE_ORDER chunks hc
          rw [h38] at hl
          rw [← h]
          simp only [List.length_cons, List.length_append]
          rw [hl]
          simp
          ring

/-- Claim C9, witness: a 1 by 1 map with no layers present produces
exactly the 41 bytes `[1, 1] ++ 38 zeros ++ [0]`. -/
theorem missing_layer_padding_witness :
    TiledToBin.convert_tmx_to_bin 1 1 [] (fun _ => none) (fun _ => []) =
      some c9_bytes ∧
    c9_bytes.length = 2 + 38 * ((1 : ℤ).toNat * (1 : ℤ).toNat) + 1 :=
  ⟨by decide,
   missing_layer_padding_and_length.2 1 1 [] (fun _ => none) (fun _ => [])
     c9_bytes (by decide)⟩

/-- Claim C8.  Once the binary stream is exhausted (`ptr` at or past
the end), every subsequent `get8` read yields 0 without advancing, so
any number of further reads returns all-zero bytes (remaining cells
decode as empty) and the reader never aborts; and the overflow warning
(modelled as the `Bool` flag) is raised exactly when more bytes are
requested than remain, so the truncation is detectable. -/
theorem truncated_stream_reads_zero (data : List ℕ) (n : ℕ) :
    ∀ ptr : ℕ,
      (data.length ≤ ptr →
        (BinToTiled.readN data ptr n).1 = List.replicate n 0 ∧
        (BinToTiled.readN data ptr n).2.1 = ptr) ∧
      ((BinToTiled.readN data ptr n).2.2 = true ↔ data.length - ptr < n) := by
  induction n with
  | zero =>
    intro ptr
    refine ⟨fun _ => ⟨rfl, rfl⟩, ?_⟩
    simp [BinToTiled.readN]
  | succ n ih =>
    intro ptr
    by_cases hend : data.length ≤ ptr
    · have hg : BinToTiled.get8 data ptr = (0, ptr, true) := by
        simp [BinToTiled.get8, hend]
      constructor
      · intro _
        have h1 := (ih ptr).1 hend
        simp [BinToTiled.readN, hg, h1.1, h1.2, List.replicate_succ]
      · simp [BinToTiled.readN, hg]
        omega
    · have hg : BinToTiled.get8 data ptr = (data.getD ptr 0, ptr + 1, false) := by
        simp [BinToTiled.get8, hend]
      constructor
      · intro hc
        exact absurd hc hend
      · have h2 := (ih (ptr + 1)).2
        simp [BinToTiled.readN, hg, h2]
        omega

/-- Claim C8, witness: reading three bytes from an exhausted two-byte
stream yields `[0, 0, 0]`, leaves the cursor in place, and raises the
overflow warning. -/
theorem truncated_stream_reads_zero_witness :
    (BinToTiled.readN [7, 9] 2 3).1 = List.replicate 3 0 ∧
    (BinToTiled.readN [7, 9] 2 3).2.1 = 2 ∧
    (BinToTiled.readN [7, 9] 2 3).2.2 = true := by
  have h := truncated_stream_reads_zero [7, 9] 3 2
  exact ⟨(h.1 (by decide)).1, (h.1 (by decide)).2, h.2.mpr (by decide)⟩

end MonCurse
